import Mathlib

/-!
Verification of the echo-processor process class (src/main.py) against its
specification.

The embedding models the observable behaviour of one process run:
the JSON values the program manipulates, the protocol messages it emits on
stdout (with the model time at which each is emitted), its exit code, and
the cancellation signal (`threading.Event`) set asynchronously by the stdin
reader thread.

Time is modelled by rationals.  The cancellation signal is abstracted by the
absolute time `T : Option ℚ` at which it is set (`none` = never): this is
faithful because the flag is monotone (set once, never cleared) and the only
interactions with it are `is_set()` reads and `wait(timeout)` calls.
`Event.wait(timeout=d)` at time `t` wakes at `t + max d 0` on timeout, or at
the set time if that comes first; a wait with `timeout=None` blocks until the
signal is set (possibly forever).

Error-message texts that are dynamic in the source (they interpolate an
exception or a stringified value) are modelled up to the static prefix.
Diagnostic logging and the callback HTTP traffic have no effect on stdout or
the exit code; the callback client is modelled separately (it never raises,
and `report_progress` takes no model time, which is the conservative case for
the minimum-runtime bound).
-/

/-- Parsed JSON values (the results of `json.loads`). -/
inductive Json where
  | null : Json
  | bool (b : Bool) : Json
  | num (q : ℚ) : Json
  | str (s : String) : Json
  | arr (elems : List Json) : Json
  | obj (fields : List (String × Json)) : Json

/-- Python truthiness of a parsed JSON value (`bool(v)`). -/
def truthy : Json → Bool
  | .null => false
  | .bool b => b
  | .num q => q != 0
  | .str s => s != ""
  | .arr elems => !elems.isEmpty
  | .obj fields => !fields.isEmpty

/-- Dictionary lookup (`d[k]` as an option; JSON objects have unique keys). -/
def jget (fields : List (String × Json)) (k : String) : Option Json :=
  (fields.find? fun p => p.1 == k).map (·.2)

/-- Python `dict.get(k, default)`. -/
def dictGet (fields : List (String × Json)) (k : String) (default : Json) : Json :=
  (jget fields k).getD default

/-- Values Python treats as numbers in arithmetic and order comparisons:
`int`/`float` (JSON numbers) and `bool` (`True == 1`, `False == 0`).
Other values raise `TypeError` in those positions. -/
def asPyNumber : Json → Option ℚ
  | .num q => some q
  | .bool b => some (if b then 1 else 0)
  | _ => none

/-- Whether a JSON value is the given string (Python `v == "lit"` for a
string literal: true only when `v` is that string). -/
def Json.isStr : Json → String → Bool
  | .str s, lit => s == lit
  | _, _ => false

/-- Whether a JSON value is an object (a Python dict). -/
def Json.isObj : Json → Bool
  | .obj _ => true
  | _ => false

/-- The transform applied to the echoed message: `message.upper()[::-1]`,
i.e. uppercase then reverse. -/
def echoTransform (s : String) : String :=
  String.mk s.toUpper.data.reverse

/-- Protocol messages emitted on stdout (`emit_progress` / `emit_result` /
`emit_error`). -/
inductive Msg where
  | progress (percent : Option ℤ) (text : String) : Msg
  | result (data : Json) : Msg
  | error (code : String) (text : String) (data : Option Json) : Msg

/-- A stdout message together with the model time at which it is emitted. -/
abbrev TMsg := ℚ × Msg

/-- Outcome of one process run: normal return with an exit code, an
unmanaged exception (propagated, no further emission), or blocking forever
(`Event.wait(timeout=None)` with the signal never set).  Each carries the
stdout trace emitted up to that point, and `ok` carries the time at which
the run returns. -/
inductive RunResult where
  | ok (trace : List TMsg) (code : ℕ) (tEnd : ℚ) : RunResult
  | exn (trace : List TMsg) : RunResult
  | hang (trace : List TMsg) : RunResult

/-- The stdout trace of a run outcome. -/
def RunResult.trace : RunResult → List TMsg
  | .ok tr _ _ => tr
  | .exn tr => tr
  | .hang tr => tr

/-- The exit code of a run outcome (`none` for exception/hang). -/
def RunResult.exitCode : RunResult → Option ℕ
  | .ok _ c _ => some c
  | _ => none

/-- Prepend already-emitted messages to a run outcome's trace. -/
def RunResult.prepend (pre : List TMsg) : RunResult → RunResult
  | .ok tr c t => .ok (pre ++ tr) c t
  | .exn tr => .exn (pre ++ tr)
  | .hang tr => .hang (pre ++ tr)

/-- The codes of the `error` messages in a trace, in emission order. -/
def errorCodes (tr : List TMsg) : List String :=
  tr.filterMap fun e => match e.2 with
    | .error c _ _ => some c
    | _ => none

/-- The data payloads of the `result` messages in a trace. -/
def resultsOf (tr : List TMsg) : List Json :=
  tr.filterMap fun e => match e.2 with
    | .result d => some d
    | _ => none

/-- The percent fields of the `progress` messages in a trace. -/
def progressPercents (tr : List TMsg) : List (Option ℤ) :=
  tr.filterMap fun e => match e.2 with
    | .progress p _ => some p
    | _ => none

/-- Whether a message is terminal (a `result` or an `error`). -/
def isTerminal : Msg → Bool
  | .result _ => true
  | .error _ _ _ => true
  | _ => false

/-- Number of terminal messages in a trace. -/
def countTerminal (tr : List TMsg) : ℕ :=
  (errorCodes tr).length + (resultsOf tr).length

/-- `_terminate_event.is_set()` at model time `t`, with the signal set at
absolute time `T` (`none` = never set). -/
def isSet (T : Option ℚ) (t : ℚ) : Bool :=
  match T with
  | none => false
  | some tt => decide (tt ≤ t)

/-- Wake-up time of `_terminate_event.wait(timeout=d)` started at time `t`:
the wait returns after `max d 0` seconds (a negative timeout returns
immediately), or as soon as the signal is set, whichever comes first. -/
def waitUntil (T : Option ℚ) (t d : ℚ) : ℚ :=
  match T with
  | none => t + max d 0
  | some tt => if tt ≤ t then t else min (t + max d 0) tt

/-- Termination measure for the minimum-runtime wait loop. -/
def minRunMeasure (T : Option ℚ) (minRun t : ℚ) : ℕ :=
  if isSet T t then 0 else (⌈minRun - t⌉.toNat + 1)

/-- The `minRunSeconds` enforcement loop (src/main.py lines 280-288), entered
at time `t` with `start_time = 0`: while remaining time is positive, check the
signal (the caller emits the `TERMINATED` error when the returned flag is
true), then wait at most 1 second on the signal and recompute.  Returns the
time at which the loop is left and whether it was left via the cancellation
check. -/
def minRunLoop (T : Option ℚ) (minRun : ℚ) (t : ℚ) : ℚ × Bool :=
  if 0 < minRun - t then
    if isSet T t then (t, true)
    else minRunLoop T minRun (waitUntil T t (min 1 (minRun - t)))
  else (t, false)
termination_by minRunMeasure T minRun t
decreasing_by
  rename_i hrem hset
  have h1 : (0:ℚ) < min 1 (minRun - t) := lt_min one_pos hrem
  have hceil : 0 < ⌈minRun - t⌉ := Int.ceil_pos.mpr hrem
  have hR : minRunMeasure T minRun t = ⌈minRun - t⌉.toNat + 1 := by
    simp [minRunMeasure, hset]
  have harith : ⌈minRun - (t + min 1 (minRun - t))⌉.toNat < ⌈minRun - t⌉.toNat := by
    rcases le_or_lt (minRun - t) 1 with hle | hlt
    · have he : minRun - (t + min 1 (minRun - t)) = 0 := by
        rw [min_eq_right hle]; ring
      rw [he]
      simp only [Int.ceil_zero, Int.toNat_zero]
      omega
    · have he : minRun - (t + min 1 (minRun - t)) = minRun - t - 1 := by
        rw [min_eq_left (le_of_lt hlt)]; ring
      rw [he]
      have hc2 : 2 ≤ ⌈minRun - t⌉ := by
        have hx := Int.lt_ceil.mpr (show ((1:ℤ):ℚ) < minRun - t by exact_mod_cast hlt)
        omega
      have hsub : ⌈minRun - t - 1⌉ = ⌈minRun - t⌉ - 1 := by
        have h := Int.ceil_sub_int (minRun - t) 1
        simp only [Int.cast_one] at h
        exact h
      rw [hsub]
      omega
  have hcases : isSet T (waitUntil T t (min 1 (minRun - t))) = true ∨
      waitUntil T t (min 1 (minRun - t)) = t + min 1 (minRun - t) := by
    cases T with
    | none =>
      right
      simp [waitUntil, max_eq_left (le_of_lt h1)]
    | some tt =>
      have hnot : ¬ tt ≤ t := by
        intro hc
        exact hset (by simp [isSet, hc])
      rcases le_or_lt tt (t + min 1 (minRun - t)) with hwake | hfull
      · left
        simp [waitUntil, isSet, if_neg hnot, max_eq_left (le_of_lt h1),
          min_eq_right hwake]
      · right
        simp [waitUntil, if_neg hnot, max_eq_left (le_of_lt h1),
          min_eq_left (le_of_lt hfull)]
  rcases hcases with hs | he
  · have hz : minRunMeasure T minRun (waitUntil T t (min 1 (minRun - t))) = 0 := by
      simp [minRunMeasure, hs]
    rw [hR, hz]
    omega
  · have hb : minRunMeasure T minRun (waitUntil T t (min 1 (minRun - t))) ≤
        ⌈minRun - (t + min 1 (minRun - t))⌉.toNat + 1 := by
      rw [he]
      by_cases hz : isSet T (t + min 1 (minRun - t)) = true
      · simp [minRunMeasure, hz]
      · simp [minRunMeasure, hz]
    rw [hR]
    omega

/-- The fixed progress steps of the normal processing path
(src/main.py lines 242-247). -/
def steps : List (ℤ × String) :=
  [ (25, "Processing input..."),
    (50, "Transforming data..."),
    (75, "Preparing output..."),
    (90, "Finalizing...") ]

/-- Outcome of the progress-step loop (src/main.py lines 249-259). -/
inductive StepsOut where
  | term (tr : List TMsg) (t : ℚ) : StepsOut
  | typeErr (tr : List TMsg) : StepsOut
  | done (tr : List TMsg) (t : ℚ) : StepsOut

/-- The progress-step loop: for each remaining step, check the cancellation
signal (emitting `TERMINATED` and exiting 3 if set), emit the progress
message, then wait `delay / len(steps)` seconds on the signal.  `n` is
`len(steps)` of the full list (the constant 4 at runtime); a non-numeric
`delay` raises `TypeError` at the first wait (`typeErr`).  The in-loop
callback relay at 50% has no stdout effect and is omitted. -/
def stepsLoop (T : Option ℚ) (delay : Json) (n : ℕ) (t : ℚ) :
    List (ℤ × String) → StepsOut
  | [] => .done [] t
  | (p, text) :: rest =>
    if isSet T t then
      .term [(t, .error "TERMINATED" "Process was terminated" none)] t
    else
      let tr0 : List TMsg := [(t, .progress (some p) text)]
      match asPyNumber delay with
      | none => .typeErr tr0
      | some d =>
        match stepsLoop T delay n (waitUntil T t (d / n)) rest with
        | .term tr t' => .term (tr0 ++ tr) t'
        | .typeErr tr => .typeErr (tr0 ++ tr)
        | .done tr t' => .done (tr0 ++ tr) t'

/-- The `TERMINATED` error message. -/
def terminatedMsg : Msg := .error "TERMINATED" "Process was terminated" none

/-- The `handle_execute` action handler (src/main.py lines 208-298), entered
at model time 0 with the resolved execution id, the wall-clock timestamp the
result will carry, and the cancellation-signal set time `T`. -/
def handleExecute (params : List (String × Json)) (execId : Json)
    (nowStr : String) (T : Option ℚ) : RunResult :=
  let message := dictGet params "message" .null
  let delay := dictGet params "delay" (.num 1)
  let shouldFail := dictGet params "shouldFail" (.bool false)
  let minRun := dictGet params "minRunSeconds" (.num 0)
  if !truthy message then
    .ok [(0, .error "MISSING_FIELD" "Required field 'message' is missing" none)] 2 0
  else if truthy shouldFail then
    -- fault-injection branch: progress 50, wait up to `delay` on the signal
    let tr0 : List TMsg := [(0, .progress (some 50) "Processing...")]
    match delay, asPyNumber delay with
    | .null, _ =>
      -- Event.wait(timeout=None) blocks until the signal is set
      match T with
      | none => .hang tr0
      | some tt =>
        .ok (tr0 ++ [(max 0 tt, terminatedMsg)]) 3 (max 0 tt)
    | _, none => .exn tr0
    | _, some d =>
      let t := waitUntil T 0 d
      if isSet T t then .ok (tr0 ++ [(t, terminatedMsg)]) 3 t
      else
        .ok (tr0 ++
          [(t, .error "SIMULATED_FAILURE"
              "Process failed as requested by shouldFail=true" none)]) 1 t
  else
    match stepsLoop T delay steps.length 0 steps with
    | .term tr t => .ok tr 3 t
    | .typeErr tr => .exn tr
    | .done tr t =>
      if isSet T t then .ok (tr ++ [(t, terminatedMsg)]) 3 t
      else
        let tr2 := tr ++ [(t, .progress (some 100) "Done")]
        -- build result: `message.upper()` raises on a non-string message
        match message with
        | .str s =>
          let result : Json := .obj
            [ ("echoedMessage", .str ("ECHO v2.1: " ++ echoTransform s)),
              ("processedAt", .str nowStr),
              ("executionId", execId) ]
          -- `min_run_seconds > 0` raises TypeError on a non-numeric value
          match asPyNumber minRun with
          | none => .exn tr2
          | some m =>
            let out := if 0 < m then minRunLoop T m t else (t, false)
            if out.2 then .ok (tr2 ++ [(out.1, terminatedMsg)]) 3 out.1
            else if isSet T out.1 then .ok (tr2 ++ [(out.1, terminatedMsg)]) 3 out.1
            else .ok (tr2 ++ [(out.1, .result result)]) 0 out.1
        | _ => .exn tr2

/-- The first line read from stdin: blank (or end of stream), not valid
JSON (carrying the decoder's message), or parsed. -/
inductive FirstLine where
  | empty : FirstLine
  | invalid (errText : String) : FirstLine
  | parsed (j : Json) : FirstLine

/-- Whether the `keycloak` entry of `_meta` can be logged without raising:
`if keycloak_config:` followed by `keycloak_config.get(...)`
(src/main.py lines 349-354) raises unless the value is falsy or a dict. -/
def kcSafe : Json → Bool
  | .obj _ => true
  | v => !truthy v

/-- Whether a key starts with the protocol marker `_`
(`k.startswith("_")`). -/
def underscored (k : String) : Bool :=
  match k.data with
  | [] => false
  | c :: _ => c == '_'

/-- `extract_user_params`: drop protocol fields (keys starting with `_`). -/
def userParams (fields : List (String × Json)) : List (String × Json) :=
  fields.filter fun p => !underscored p.1

/-- Execution-id resolution: the `EXECUTION_ID` environment value, overridden
by a truthy `_meta.executionId` (src/main.py lines 340-343). -/
def resolveExecId (envExecId : String) (meta : List (String × Json)) : Json :=
  let e := dictGet meta "executionId" .null
  if truthy e then e else .str envExecId

/-- The `main` entry point (src/main.py lines 308-395) as a function of the
environment execution id, the first stdin line, the result timestamp, and
the cancellation-signal set time.  A non-dict parsed message, a non-dict
`_meta`, or a truthy non-dict `keycloak` raise before any terminal message
(`exn`: the unhandled exception is re-raised, nothing further is emitted). -/
def mainRun (envExecId : String) (first : FirstLine) (nowStr : String)
    (T : Option ℚ) : RunResult :=
  let tr0 : List TMsg := [(0, .progress (some 0) "Starting...")]
  match first with
  | .empty => .ok (tr0 ++ [(0, .error "EMPTY_INPUT" "No input provided on stdin" none)]) 2 0
  | .invalid errText =>
    .ok (tr0 ++ [(0, .error "INVALID_JSON" ("Input is not valid JSON: " ++ errText) none)]) 2 0
  | .parsed j =>
    match j with
    | .obj fields =>
      let action := dictGet fields "_action" .null
      let metaV := dictGet fields "_meta" (.obj [])
      match metaV with
      | .obj meta =>
        let execId := resolveExecId envExecId meta
        if kcSafe (dictGet meta "keycloak" .null) then
          if !truthy action then
            .ok (tr0 ++ [(0, .error "MISSING_ACTION"
              "Required field '_action' is missing from input" none)]) 2 0
          else
            let params := userParams fields
            let tr1 := tr0 ++ [(0, .progress (some 10) "Input validated")]
            if action.isStr "execute" then
              (handleExecute params execId nowStr T).prepend tr1
            else if action.isStr "terminate" then
              .ok (tr1 ++ [(0, .result (.obj [("cleaned", .bool true)]))]) 0 0
            else
              .ok (tr1 ++ [(0, .error "UNKNOWN_ACTION" "Unknown _action: " none)]) 2 0
        else
          .exn tr0
      | _ => .exn tr0
    | _ => .exn tr0

/-- An outbound HTTP request made by the callback client. -/
inductive HttpCall where
  | tokenRequest (tokenUrl clientId clientSecret : Json) : HttpCall
  | progressPost (baseUrl executionId : Json) (percent : ℤ)
      (message : String) (token : String) : HttpCall

/-- Lookup in the keycloak config (only reached when the client is enabled,
in which case the config is a dict containing the key). -/
def kcGetD (kc : Json) (k : String) : Json :=
  match kc with
  | .obj fields => dictGet fields k .null
  | _ => .null

/-- The callback client state (src/main.py `CallbackClient.__init__`):
constructor arguments plus the lazily cached bearer token. -/
structure CallbackClient where
  callbackBaseUrl : Json
  executionId : Json
  keycloak : Json
  cachedToken : Option String

/-- `self.enabled`: the Python truthiness chain
`bool(callback_base_url and keycloak_config and keycloak_config.get("tokenUrl")
and keycloak_config.get("clientId") and keycloak_config.get("clientSecret"))`. -/
def CallbackClient.enabled (c : CallbackClient) : Bool :=
  truthy c.callbackBaseUrl && truthy c.keycloak &&
    truthy (kcGetD c.keycloak "tokenUrl") &&
    truthy (kcGetD c.keycloak "clientId") &&
    truthy (kcGetD c.keycloak "clientSecret")

/-- `_get_token`: return the cached token, or perform one token request.
`tokenResp` is the network oracle: the `access_token` of a successful
response, or `none` for any failure (failures are logged and swallowed).
Returns the requests performed, the token obtained, and the updated client. -/
def CallbackClient.getToken (c : CallbackClient) (tokenResp : Option String) :
    List HttpCall × Option String × CallbackClient :=
  match c.cachedToken with
  | some tok => ([], some tok, c)
  | none =>
    ( [HttpCall.tokenRequest (kcGetD c.keycloak "tokenUrl")
        (kcGetD c.keycloak "clientId") (kcGetD c.keycloak "clientSecret")],
      tokenResp,
      match tokenResp with
      | some tok => { c with cachedToken := some tok }
      | none => c )

/-- `report_progress`: no-op when disabled; otherwise obtain a token (no-op
if none obtainable) and POST the progress payload.  Never raises; returns
the requests performed and the updated client. -/
def CallbackClient.reportProgress (c : CallbackClient) (tokenResp : Option String)
    (percent : ℤ) (message : String) : List HttpCall × CallbackClient :=
  if !c.enabled then ([], c)
  else
    match c.getToken tokenResp with
    | (calls, none, c') => (calls, c')
    | (calls, some tok, c') =>
      (calls ++ [HttpCall.progressPost c.callbackBaseUrl c.executionId
        percent message tok], c')

/-- A wait never goes back in time. -/
theorem le_waitUntil (T : Option ℚ) (t d : ℚ) : t ≤ waitUntil T t d := by
  cases T with
  | none =>
    simp only [waitUntil]
    exact le_add_of_nonneg_right (le_max_right d 0)
  | some tt =>
    simp only [waitUntil]
    split_ifs with h
    · exact le_refl t
    · exact le_min (le_add_of_nonneg_right (le_max_right d 0)) (le_of_lt (lt_of_not_le h))

/-- A wait wakes no later than the signal time (the signal wakes waiters). -/
theorem waitUntil_le_max (tt t d : ℚ) : waitUntil (some tt) t d ≤ max t tt := by
  simp only [waitUntil]
  split_ifs with h
  · exact le_max_left t tt
  · exact le_trans (min_le_right _ tt) (le_max_right t tt)

/-- One unfolding of the minimum-runtime loop. -/
theorem minRunLoop_unfold (T : Option ℚ) (m t : ℚ) :
    minRunLoop T m t =
      if 0 < m - t then
        if isSet T t then (t, true)
        else minRunLoop T m (waitUntil T t (min 1 (m - t)))
      else (t, false) := by
  rw [minRunLoop]

/-- With the signal never set, the minimum-runtime loop waits until exactly
`max t m` and is never cancelled. -/
theorem minRunLoop_none_eq (m t : ℚ) : minRunLoop none m t = (max t m, false) := by
  induction t using minRunLoop.induct none m with
  | case1 x hrem hset => simp [isSet] at hset
  | case2 x hrem hset ih =>
    rw [minRunLoop_unfold, if_pos hrem, if_neg hset, ih]
    have hw : (0:ℚ) < min 1 (m - x) := lt_min one_pos hrem
    have hwu : waitUntil none x (min 1 (m - x)) = x + min 1 (m - x) := by
      simp [waitUntil, max_eq_left (le_of_lt hw)]
    have h1 : x ≤ m := by linarith
    have h2 : x + min 1 (m - x) ≤ m := by
      have := min_le_right (1:ℚ) (m - x); linarith
    rw [hwu, max_eq_right h2, max_eq_right h1]
  | case3 x hrem =>
    rw [minRunLoop_unfold, if_neg hrem, max_eq_left (show m ≤ x by linarith)]

/-- The minimum-runtime loop never goes back in time. -/
theorem minRunLoop_le (T : Option ℚ) (m t : ℚ) : t ≤ (minRunLoop T m t).1 := by
  induction t using minRunLoop.induct T m with
  | case1 x hrem hset =>
    rw [minRunLoop_unfold, if_pos hrem, if_pos hset]
  | case2 x hrem hset ih =>
    rw [minRunLoop_unfold, if_pos hrem, if_neg hset]
    exact le_trans (le_waitUntil T x _) ih
  | case3 x hrem =>
    rw [minRunLoop_unfold, if_neg hrem]

/-- The minimum-runtime loop never runs past the signal time. -/
theorem minRunLoop_le_max (tt m t : ℚ) :
    (minRunLoop (some tt) m t).1 ≤ max t tt := by
  induction t using minRunLoop.induct (some tt) m with
  | case1 x hrem hset =>
    rw [minRunLoop_unfold, if_pos hrem, if_pos hset]
    exact le_max_left x tt
  | case2 x hrem hset ih =>
    rw [minRunLoop_unfold, if_pos hrem, if_neg hset]
    exact le_trans ih (max_le (waitUntil_le_max tt x _) (le_max_right x tt))
  | case3 x hrem =>
    rw [minRunLoop_unfold, if_neg hrem]
    exact le_max_left x tt

/-- When the minimum-runtime loop is left via the cancellation check, the
signal was set by the time it returned. -/
theorem minRunLoop_term_set (tt m t : ℚ) :
    (minRunLoop (some tt) m t).2 = true → tt ≤ (minRunLoop (some tt) m t).1 := by
  induction t using minRunLoop.induct (some tt) m with
  | case1 x hrem hset =>
    rw [minRunLoop_unfold, if_pos hrem, if_pos hset]
    intro h
    simpa [isSet] using hset
  | case2 x hrem hset ih =>
    rw [minRunLoop_unfold, if_pos hrem, if_neg hset]
    exact ih
  | case3 x hrem =>
    rw [minRunLoop_unfold, if_neg hrem]
    intro h
    simp at h

@[simp]
theorem errorCodes_append (a b : List TMsg) :
    errorCodes (a ++ b) = errorCodes a ++ errorCodes b :=
  List.filterMap_append a b _

@[simp]
theorem resultsOf_append (a b : List TMsg) :
    resultsOf (a ++ b) = resultsOf a ++ resultsOf b :=
  List.filterMap_append a b _

@[simp]
theorem progressPercents_append (a b : List TMsg) :
    progressPercents (a ++ b) = progressPercents a ++ progressPercents b :=
  List.filterMap_append a b _

/-- When the progress-step loop finishes all steps, it emitted only progress
messages, time moved forward, and with a signal it never ran past the signal
time. -/
theorem stepsLoop_done (T : Option ℚ) (delay : Json) (n : ℕ)
    (l : List (ℤ × String)) :
    ∀ (t : ℚ) (tr : List TMsg) (t' : ℚ),
      stepsLoop T delay n t l = .done tr t' →
      errorCodes tr = [] ∧ resultsOf tr = [] ∧ t ≤ t' ∧
        ∀ tt, T = some tt → t' ≤ max t tt := by
  induction l with
  | nil =>
    intro t tr t' h
    simp only [stepsLoop] at h
    injection h with h1 h2
    subst h1
    subst h2
    exact ⟨rfl, rfl, le_refl t, fun tt _ => le_max_left t tt⟩
  | cons hd rest ih =>
    intro t tr t' h
    obtain ⟨p, text⟩ := hd
    simp only [stepsLoop] at h
    by_cases hset : isSet T t = true
    · rw [if_pos hset] at h
      exact StepsOut.noConfusion h
    · rw [if_neg hset] at h
      split at h
      · exact StepsOut.noConfusion h
      · rename_i d hdn
        split at h
        · exact StepsOut.noConfusion h
        · exact StepsOut.noConfusion h
        · rename_i tr2 t2 hrec
          injection h with h1 h2
          subst h1
          subst h2
          obtain ⟨e1, e2, e3, e4⟩ := ih _ _ _ hrec
          refine ⟨?_, ?_, ?_, ?_⟩
          · simp [errorCodes, List.filterMap] at e1 ⊢
            exact e1
          · simp [resultsOf, List.filterMap] at e2 ⊢
            exact e2
          · exact le_trans (le_waitUntil T t _) e3
          · intro tt hT
            subst hT
            exact le_trans (e4 tt rfl)
              (max_le (waitUntil_le_max tt t _) (le_max_right t tt))

/-- When the progress-step loop is left via the cancellation check, the
trace is progress messages followed by exactly one `TERMINATED` error, and
with a signal set at `tt` the loop stops at exactly `max t tt`. -/
theorem stepsLoop_term (T : Option ℚ) (delay : Json) (n : ℕ)
    (l : List (ℤ × String)) :
    ∀ (t : ℚ) (tr : List TMsg) (t' : ℚ),
      stepsLoop T delay n t l = .term tr t' →
      errorCodes tr = ["TERMINATED"] ∧ resultsOf tr = [] ∧ t ≤ t' ∧
        ∀ tt, T = some tt → t' = max t tt := by
  induction l with
  | nil =>
    intro t tr t' h
    simp only [stepsLoop] at h
    exact StepsOut.noConfusion h
  | cons hd rest ih =>
    intro t tr t' h
    obtain ⟨p, text⟩ := hd
    simp only [stepsLoop] at h
    by_cases hset : isSet T t = true
    · rw [if_pos hset] at h
      injection h with h1 h2
      subst h1
      subst h2
      refine ⟨rfl, rfl, le_refl t, ?_⟩
      intro tt hT
      subst hT
      have hle : tt ≤ t := by simpa [isSet] using hset
      rw [max_eq_left hle]
    · rw [if_neg hset] at h
      split at h
      · exact StepsOut.noConfusion h
      · rename_i d hdn
        split at h
        · rename_i tr2 t2 hrec
          injection h with h1 h2
          subst h1
          subst h2
          obtain ⟨e1, e2, e3, e4⟩ := ih _ _ _ hrec
          refine ⟨?_, ?_, ?_, ?_⟩
          · simp [errorCodes, List.filterMap] at e1 ⊢
            exact e1
          · simp [resultsOf, List.filterMap] at e2 ⊢
            exact e2
          · exact le_trans (le_waitUntil T t _) e3
          · intro tt hT
            subst hT
            have hlt : t < tt := by
              rcases lt_or_le t tt with hx | hx
              · exact hx
              · exact absurd (by simp [isSet, hx]) hset
            have hw : waitUntil (some tt) t (d / n) ≤ tt := by
              have hb := waitUntil_le_max tt t (d / n)
              rwa [max_eq_right (le_of_lt hlt)] at hb
            rw [e4 tt rfl, max_eq_right hw, max_eq_right (le_of_lt hlt)]
        · exact StepsOut.noConfusion h
        · exact StepsOut.noConfusion h

@[simp]
theorem errorCodes_nil : errorCodes [] = [] := rfl

@[simp]
theorem errorCodes_cons_progress (t : ℚ) (p : Option ℤ) (s : String) (tr : List TMsg) :
    errorCodes ((t, Msg.progress p s) :: tr) = errorCodes tr := rfl

@[simp]
theorem errorCodes_cons_result (t : ℚ) (d : Json) (tr : List TMsg) :
    errorCodes ((t, Msg.result d) :: tr) = errorCodes tr := rfl

@[simp]
theorem errorCodes_cons_error (t : ℚ) (c s : String) (dd : Option Json) (tr : List TMsg) :
    errorCodes ((t, Msg.error c s dd) :: tr) = c :: errorCodes tr := rfl

@[simp]
theorem resultsOf_nil : resultsOf [] = [] := rfl

@[simp]
theorem resultsOf_cons_progress (t : ℚ) (p : Option ℤ) (s : String) (tr : List TMsg) :
    resultsOf ((t, Msg.progress p s) :: tr) = resultsOf tr := rfl

@[simp]
theorem resultsOf_cons_result (t : ℚ) (d : Json) (tr : List TMsg) :
    resultsOf ((t, Msg.result d) :: tr) = d :: resultsOf tr := rfl

@[simp]
theorem resultsOf_cons_error (t : ℚ) (c s : String) (dd : Option Json) (tr : List TMsg) :
    resultsOf ((t, Msg.error c s dd) :: tr) = resultsOf tr := rfl

@[simp]
theorem progressPercents_nil : progressPercents [] = [] := rfl

@[simp]
theorem progressPercents_cons_progress (t : ℚ) (p : Option ℤ) (s : String) (tr : List TMsg) :
    progressPercents ((t, Msg.progress p s) :: tr) = p :: progressPercents tr := rfl

@[simp]
theorem progressPercents_cons_result (t : ℚ) (d : Json) (tr : List TMsg) :
    progressPercents ((t, Msg.result d) :: tr) = progressPercents tr := rfl

@[simp]
theorem progressPercents_cons_error (t : ℚ) (c s : String) (dd : Option Json) (tr : List TMsg) :
    progressPercents ((t, Msg.error c s dd) :: tr) = progressPercents tr := rfl

@[simp]
theorem countTerminal_append (a b : List TMsg) :
    countTerminal (a ++ b) = countTerminal a + countTerminal b := by
  simp [countTerminal]
  omega

/-- Every normal return of the execute handler carries exactly one terminal
message in its trace. -/
theorem handleExecute_ok_terminal (params : List (String × Json)) (execId : Json)
    (nowStr : String) (T : Option ℚ) (tr : List TMsg) (c : ℕ) (tEnd : ℚ)
    (h : handleExecute params execId nowStr T = .ok tr c tEnd) :
    countTerminal tr = 1 := by
  simp only [handleExecute] at h
  split at h
  · injection h with h1 h2 h3
    subst h1
    simp [countTerminal]
  · split at h
    · split at h
      · split at h
        · exact RunResult.noConfusion h
        · injection h with h1 h2 h3
          subst h1
          simp [countTerminal, terminatedMsg]
      · exact RunResult.noConfusion h
      · split at h
        · injection h with h1 h2 h3
          subst h1
          simp [countTerminal, terminatedMsg]
        · injection h with h1 h2 h3
          subst h1
          simp [countTerminal]
    · split at h
      · rename_i trS tS hsteps
        injection h with h1 h2 h3
        subst h1
        obtain ⟨e1, e2, _, _⟩ := stepsLoop_term T _ _ _ _ _ _ hsteps
        simp [countTerminal, e1, e2]
      · exact RunResult.noConfusion h
      · rename_i trS tS hsteps
        obtain ⟨e1, e2, _, _⟩ := stepsLoop_done T _ _ _ _ _ _ hsteps
        split at h
        · injection h with h1 h2 h3
          subst h1
          simp [countTerminal, terminatedMsg, e1, e2]
        · split at h
          · split at h
            · exact RunResult.noConfusion h
            · split at h
              · split at h
                · injection h with h1 h2 h3
                  subst h1
                  simp [countTerminal, terminatedMsg, e1, e2]
                · split at h
                  · injection h with h1 h2 h3
                    subst h1
                    simp [countTerminal, terminatedMsg, e1, e2]
                  · injection h with h1 h2 h3
                    subst h1
                    simp [countTerminal, e1, e2]
              · split at h
                · injection h with h1 h2 h3
                  subst h1
                  simp [countTerminal, terminatedMsg, e1, e2]
                · injection h with h1 h2 h3
                  subst h1
                  simp [countTerminal, e1, e2]
          · exact RunResult.noConfusion h

/-- C3: For every process run that does not end in an unmanaged exception
(a normal return of `main`), exactly one terminal protocol message — one
`result` or one `error` — is emitted on stdout, possibly preceded by
progress messages; no run emits both a result and an error, and none emits
two terminal messages. -/
theorem c3_exactly_one_terminal (envExecId : String) (first : FirstLine)
    (nowStr : String) (T : Option ℚ) (tr : List TMsg) (c : ℕ) (tEnd : ℚ)
    (h : mainRun envExecId first nowStr T = .ok tr c tEnd) :
    countTerminal tr = 1 := by
  simp only [mainRun] at h
  split at h
  · injection h with h1 h2 h3
    subst h1
    rfl
  · injection h with h1 h2 h3
    subst h1
    rfl
  · split at h
    · split at h
      · split at h
        · split at h
          · injection h with h1 h2 h3
            subst h1
            rfl
          · split at h
            · cases hh : handleExecute (userParams _) _ nowStr T with
              | ok trE cE tE =>
                rw [hh] at h
                simp only [RunResult.prepend] at h
                injection h with h1 h2 h3
                subst h1
                have hE := handleExecute_ok_terminal _ _ _ _ _ _ _ hh
                simp only [countTerminal_append, hE]
                rfl
              | exn trE =>
                rw [hh] at h
                exact RunResult.noConfusion h
              | hang trE =>
                rw [hh] at h
                exact RunResult.noConfusion h
            · split at h
              · injection h with h1 h2 h3
                subst h1
                rfl
              · injection h with h1 h2 h3
                subst h1
                rfl
        · exact RunResult.noConfusion h
      · exact RunResult.noConfusion h
    · exact RunResult.noConfusion h

/-- Witness for C3 at a concrete input: the terminate run. -/
theorem c3_exactly_one_terminal_witness :
    countTerminal
      [((0:ℚ), Msg.progress (some 0) "Starting..."),
       ((0:ℚ), Msg.progress (some 10) "Input validated"),
       ((0:ℚ), Msg.result (Json.obj [("cleaned", Json.bool true)]))] = 1 :=
  c3_exactly_one_terminal "unknown"
    (.parsed (.obj [("_action", Json.str "terminate")])) "ts" none
    [((0:ℚ), Msg.progress (some 0) "Starting..."),
     ((0:ℚ), Msg.progress (some 10) "Input validated"),
     ((0:ℚ), Msg.result (Json.obj [("cleaned", Json.bool true)]))] 0 0 rfl

/-- C7: For every execute command whose `message` field is absent or the
empty string, the engine emits exactly one error with code `MISSING_FIELD`
and exits 2, regardless of `delay`, `shouldFail`, `minRunSeconds` or any
other fields. -/
theorem c7_missing_message (params : List (String × Json)) (execId : Json)
    (nowStr : String) (T : Option ℚ)
    (hmsg : jget params "message" = none ∨ jget params "message" = some (Json.str "")) :
    handleExecute params execId nowStr T =
      .ok [(0, .error "MISSING_FIELD" "Required field 'message' is missing" none)] 2 0 := by
  have hfal : truthy (dictGet params "message" Json.null) = false := by
    rcases hmsg with h | h <;> simp [dictGet, h, truthy]
  simp [handleExecute, hfal]

/-- Witness for C7: message absent, every other field present and odd. -/
theorem c7_missing_message_witness :
    handleExecute
      [("delay", Json.str "x"), ("shouldFail", Json.bool true),
       ("minRunSeconds", Json.null), ("extra", Json.num 9)]
      (Json.str "unknown") "ts" none =
      .ok [(0, .error "MISSING_FIELD" "Required field 'message' is missing" none)] 2 0 :=
  c7_missing_message _ _ _ _ (Or.inl rfl)

/-- C10: Validation of `message` uses Python truthiness: any present but
falsy value (empty string, 0, false, null, empty array, empty object) is
rejected with `MISSING_FIELD` and exit 2, exactly as if the field were
absent. -/
theorem c10_falsy_message (params : List (String × Json)) (execId : Json)
    (nowStr : String) (T : Option ℚ) (v : Json)
    (hpresent : jget params "message" = some v) (hfalsy : truthy v = false) :
    handleExecute params execId nowStr T =
      .ok [(0, .error "MISSING_FIELD" "Required field 'message' is missing" none)] 2 0 := by
  have hfal : truthy (dictGet params "message" Json.null) = false := by
    simp [dictGet, hpresent, hfalsy]
  simp [handleExecute, hfal]

/-- Witness for C10: `message` present as the falsy number 0. -/
theorem c10_falsy_message_witness :
    handleExecute [("message", Json.num 0), ("delay", Json.num 5)]
      (Json.str "unknown") "ts" none =
      .ok [(0, .error "MISSING_FIELD" "Required field 'message' is missing" none)] 2 0 :=
  c10_falsy_message _ _ _ _ (Json.num 0) rfl rfl

/-- The wait in the fault-injection branch takes at most `delay` seconds
(and never goes negative). -/
theorem waitUntil_zero_le_max (T : Option ℚ) (d : ℚ) :
    waitUntil T 0 d ≤ max d 0 := by
  cases T with
  | none => simp [waitUntil]
  | some tt =>
    simp only [waitUntil]
    split_ifs with h
    · exact le_max_right d 0
    · exact le_trans (min_le_left _ tt) (by simp)

/-- C5: For every execute command with a truthy message and
`shouldFail=true` (and a numeric effective `delay`), the engine emits
progress 50% "Processing...", waits up to `delay` seconds on the
Cancellation Signal, and then: if the signal is not set it emits exactly one
error `SIMULATED_FAILURE` and returns exit code 1; if the signal is set, it
emits exactly one error `TERMINATED` and returns exit code 3. -/
theorem c5_fault_injection (params : List (String × Json)) (execId : Json)
    (nowStr : String) (T : Option ℚ) (d : ℚ)
    (hmsg : truthy (dictGet params "message" Json.null) = true)
    (hsf : truthy (dictGet params "shouldFail" (Json.bool false)) = true)
    (hd : asPyNumber (dictGet params "delay" (Json.num 1)) = some d) :
    waitUntil T 0 d ≤ max d 0 ∧
    (isSet T (waitUntil T 0 d) = false →
      handleExecute params execId nowStr T =
        .ok [(0, .progress (some 50) "Processing..."),
             (waitUntil T 0 d, .error "SIMULATED_FAILURE"
               "Process failed as requested by shouldFail=true" none)]
          1 (waitUntil T 0 d)) ∧
    (isSet T (waitUntil T 0 d) = true →
      handleExecute params execId nowStr T =
        .ok [(0, .progress (some 50) "Processing..."),
             (waitUntil T 0 d, terminatedMsg)] 3 (waitUntil T 0 d)) := by
  have key : handleExecute params execId nowStr T =
      (if isSet T (waitUntil T 0 d) then
        .ok [(0, .progress (some 50) "Processing..."),
             (waitUntil T 0 d, terminatedMsg)] 3 (waitUntil T 0 d)
      else
        .ok [(0, .progress (some 50) "Processing..."),
             (waitUntil T 0 d, .error "SIMULATED_FAILURE"
               "Process failed as requested by shouldFail=true" none)]
          1 (waitUntil T 0 d)) := by
    simp only [handleExecute]
    rw [if_neg (by simp [hmsg]), if_pos hsf]
    split
    · rename_i heq2
      rw [heq2] at hd
      simp [asPyNumber] at hd
    · rename_i hnone hfn
      rw [hd] at hnone
      exact Option.noConfusion hnone
    · rename_i hsome hfn
      rw [hd] at hsome
      injection hsome with heq2
      subst heq2
      rfl
  refine ⟨waitUntil_zero_le_max T d, ?_, ?_⟩
  · intro hns
    rw [key, if_neg (by simp [hns])]
  · intro hs
    rw [key, if_pos hs]

/-- Witness for C5: `shouldFail=true`, `delay=2`, signal never set. -/
theorem c5_fault_injection_witness :
    handleExecute
      [("message", Json.str "hi"), ("shouldFail", Json.bool true), ("delay", Json.num 2)]
      (Json.str "unknown") "ts" none =
      .ok [(0, Msg.progress (some 50) "Processing..."),
           (waitUntil none 0 2, Msg.error "SIMULATED_FAILURE"
             "Process failed as requested by shouldFail=true" none)]
        1 (waitUntil none 0 2) :=
  (c5_fault_injection
    [("message", Json.str "hi"), ("shouldFail", Json.bool true), ("delay", Json.num 2)]
    (Json.str "unknown") "ts" none 2 rfl rfl rfl).2.1 rfl

/-- C8: The callback client is enabled only when the callback base URL and
all three keycloak credentials (token URL, client id, client secret) are
present (truthy); when any is missing, `report_progress` performs no
outbound HTTP request and leaves the client state unchanged. -/
theorem c8_callback_degradation (cbu eid kc : Json) (tokenResp : Option String)
    (percent : ℤ) (message : String) :
    (CallbackClient.enabled ⟨cbu, eid, kc, none⟩ = true →
      truthy cbu = true ∧ truthy (kcGetD kc "tokenUrl") = true ∧
        truthy (kcGetD kc "clientId") = true ∧
        truthy (kcGetD kc "clientSecret") = true) ∧
    ((truthy cbu = false ∨ truthy (kcGetD kc "tokenUrl") = false ∨
        truthy (kcGetD kc "clientId") = false ∨
        truthy (kcGetD kc "clientSecret") = false) →
      CallbackClient.enabled ⟨cbu, eid, kc, none⟩ = false ∧
        CallbackClient.reportProgress ⟨cbu, eid, kc, none⟩ tokenResp percent message =
          ([], ⟨cbu, eid, kc, none⟩)) := by
  constructor
  · intro he
    simp only [CallbackClient.enabled, Bool.and_eq_true] at he
    exact ⟨he.1.1.1.1, he.1.1.2, he.1.2, he.2⟩
  · intro hmiss
    have hdis : CallbackClient.enabled ⟨cbu, eid, kc, none⟩ = false := by
      rcases hmiss with h | h | h | h <;>
        simp [CallbackClient.enabled, h]
    refine ⟨hdis, ?_⟩
    simp [CallbackClient.reportProgress, hdis]

/-- Witness for C8: full keycloak config but no client secret. -/
theorem c8_callback_degradation_witness :
    CallbackClient.reportProgress
      ⟨Json.str "http://monitor", Json.str "e1",
        Json.obj [("tokenUrl", Json.str "http://kc"), ("clientId", Json.str "c1")],
        none⟩ (some "tok") 50 "Transforming data..." =
      ([], ⟨Json.str "http://monitor", Json.str "e1",
        Json.obj [("tokenUrl", Json.str "http://kc"), ("clientId", Json.str "c1")],
        none⟩) :=
  ((c8_callback_degradation (Json.str "http://monitor") (Json.str "e1")
    (Json.obj [("tokenUrl", Json.str "http://kc"), ("clientId", Json.str "c1")])
    (some "tok") 50 "Transforming data...").2
    (Or.inr (Or.inr (Or.inr rfl)))).2

/-- The trace of a prefixed outcome is the prefix followed by the trace. -/
theorem trace_prepend (pre : List TMsg) (r : RunResult) :
    (r.prepend pre).trace = pre ++ r.trace := by
  cases r <;> rfl

/-- C6 (amended): the dispatcher maps malformed leading input to errors with
exit code 2: an empty first line yields `EMPTY_INPUT`; a non-JSON first line
yields `INVALID_JSON`; for a first line parsing to a JSON object whose
`_meta` is (defaulted to) an object with a loggable `keycloak` entry, an
absent-or-falsy action marker yields `MISSING_ACTION`, and a truthy action
value other than `execute`/`terminate` yields `UNKNOWN_ACTION`.  (As stated
the claim fails: a present but falsy action value such as `""` is reported
as `MISSING_ACTION`, not `UNKNOWN_ACTION`.) -/
theorem c6_dispatcher_errors (envExecId nowStr errText : String)
    (T : Option ℚ) (fields meta : List (String × Json))
    (hmeta : dictGet fields "_meta" (Json.obj []) = Json.obj meta)
    (hkc : kcSafe (dictGet meta "keycloak" Json.null) = true) :
    (errorCodes (mainRun envExecId .empty nowStr T).trace = ["EMPTY_INPUT"] ∧
      (mainRun envExecId .empty nowStr T).exitCode = some 2) ∧
    (errorCodes (mainRun envExecId (.invalid errText) nowStr T).trace = ["INVALID_JSON"] ∧
      (mainRun envExecId (.invalid errText) nowStr T).exitCode = some 2) ∧
    (truthy (dictGet fields "_action" Json.null) = false →
      errorCodes (mainRun envExecId (.parsed (.obj fields)) nowStr T).trace =
          ["MISSING_ACTION"] ∧
        (mainRun envExecId (.parsed (.obj fields)) nowStr T).exitCode = some 2) ∧
    (truthy (dictGet fields "_action" Json.null) = true →
      (dictGet fields "_action" Json.null).isStr "execute" = false →
      (dictGet fields "_action" Json.null).isStr "terminate" = false →
      errorCodes (mainRun envExecId (.parsed (.obj fields)) nowStr T).trace =
          ["UNKNOWN_ACTION"] ∧
        (mainRun envExecId (.parsed (.obj fields)) nowStr T).exitCode = some 2) := by
  refine ⟨⟨rfl, rfl⟩, ⟨rfl, rfl⟩, ?_, ?_⟩
  · intro hfa
    constructor <;>
      simp [mainRun, hmeta, hkc, hfa, RunResult.trace, RunResult.exitCode]
  · intro hta hne hnt
    constructor <;>
      simp [mainRun, hmeta, hkc, hta, hne, hnt, RunResult.trace, RunResult.exitCode]

/-- Witness for C6 (amended): action value 7 is truthy and unknown. -/
theorem c6_dispatcher_errors_witness :
    errorCodes (mainRun "unknown"
        (.parsed (.obj [("_action", Json.num 7)])) "ts" none).trace =
      ["UNKNOWN_ACTION"] ∧
    (mainRun "unknown" (.parsed (.obj [("_action", Json.num 7)])) "ts" none).exitCode =
      some 2 :=
  (c6_dispatcher_errors "unknown" "ts" "e" none [("_action", Json.num 7)] []
    rfl rfl).2.2.2 rfl rfl rfl

/-- Counterexample to C6 as stated: the first line `{"_action": ""}` has an
action value other than `execute` or `terminate`, yet the run reports
`MISSING_ACTION` (the code tests truthiness), not `UNKNOWN_ACTION`. -/
theorem c6_counterexample :
    Json.isStr (Json.str "") "execute" = false ∧
    Json.isStr (Json.str "") "terminate" = false ∧
    errorCodes (mainRun "unknown"
        (.parsed (.obj [("_action", Json.str "")])) "ts" none).trace =
      ["MISSING_ACTION"] ∧
    (mainRun "unknown" (.parsed (.obj [("_action", Json.str "")])) "ts" none).exitCode =
      some 2 :=
  ⟨rfl, rfl, rfl, rfl⟩

/-- C9 (amended): every run emits progress 0% "Starting..." as its first
stdout message, before any input is examined; and every run whose first line
parses to a JSON object with a truthy action marker (and a well-formed
`_meta`) also emits progress 10% "Input validated" as its second message,
before the action is routed — so MISSING_FIELD runs, UNKNOWN_ACTION runs and
terminate runs all begin with the 0% and 10% progress messages.  (As stated
the claim fails: a present but falsy action marker, e.g. `false`, ends in
`MISSING_ACTION` without the 10% message.) -/
theorem c9_startup_progress :
    (∀ (envExecId nowStr : String) (first : FirstLine) (T : Option ℚ),
      (mainRun envExecId first nowStr T).trace.head? =
        some (0, Msg.progress (some 0) "Starting...")) ∧
    (∀ (envExecId nowStr : String) (T : Option ℚ) (fields meta : List (String × Json)),
      dictGet fields "_meta" (Json.obj []) = Json.obj meta →
      kcSafe (dictGet meta "keycloak" Json.null) = true →
      truthy (dictGet fields "_action" Json.null) = true →
      ((mainRun envExecId (.parsed (.obj fields)) nowStr T).trace.take 2 =
        [(0, Msg.progress (some 0) "Starting..."),
         (0, Msg.progress (some 10) "Input validated")])) := by
  constructor
  · intro envExecId nowStr first T
    cases first with
    | empty => rfl
    | invalid errText => rfl
    | parsed j =>
      cases j with
      | obj fields =>
        simp only [mainRun]
        split
        · split
          · split
            · simp [RunResult.trace]
            · split
              · simp [trace_prepend]
              · split
                · simp [RunResult.trace]
                · simp [RunResult.trace]
          · simp [RunResult.trace]
        · simp [RunResult.trace]
      | null => rfl
      | bool b => rfl
      | num q => rfl
      | str s => rfl
      | arr elems => rfl
  · intro envExecId nowStr T fields meta hmeta hkc hta
    simp only [mainRun, hmeta]
    rw [if_pos hkc, if_neg (by simp [hta])]
    split
    · simp [trace_prepend]
    · split
      · rfl
      · rfl

/-- Witness for C9 (amended): a terminate command begins with 0% and 10%. -/
theorem c9_startup_progress_witness :
    (mainRun "unknown" (.parsed (.obj [("_action", Json.str "terminate")])) "ts"
        none).trace.take 2 =
      [(0, Msg.progress (some 0) "Starting..."),
       (0, Msg.progress (some 10) "Input validated")] :=
  c9_startup_progress.2 "unknown" "ts" none [("_action", Json.str "terminate")] []
    rfl rfl rfl

/-- Counterexample to C9 as stated: the first line `{"_action": false}`
contains an action marker, yet the run emits only the 0% progress message
before its terminal `MISSING_ACTION` error — no 10% "Input validated". -/
theorem c9_counterexample :
    jget [("_action", Json.bool false)] "_action" = some (Json.bool false) ∧
    (mainRun "unknown" (.parsed (.obj [("_action", Json.bool false)])) "ts" none).trace =
      [(0, Msg.progress (some 0) "Starting..."),
       (0, Msg.error "MISSING_ACTION"
         "Required field '_action' is missing from input" none)] ∧
    progressPercents (mainRun "unknown"
        (.parsed (.obj [("_action", Json.bool false)])) "ts" none).trace =
      [some 0] :=
  ⟨rfl, rfl, rfl⟩

/-- The progress-step loop over the four fixed steps with the signal never
set and a numeric delay: all four progress messages are emitted and each
wait advances time by `max (delay/4) 0`. -/
theorem stepsLoop_none_run (delay : Json) (d : ℚ)
    (hd : asPyNumber delay = some d) (t : ℚ) :
    stepsLoop none delay steps.length t steps =
      .done
        [ (t, .progress (some 25) "Processing input..."),
          (t + max (d/4) 0, .progress (some 50) "Transforming data..."),
          (t + max (d/4) 0 + max (d/4) 0, .progress (some 75) "Preparing output..."),
          (t + max (d/4) 0 + max (d/4) 0 + max (d/4) 0,
            .progress (some 90) "Finalizing...") ]
        (t + max (d/4) 0 + max (d/4) 0 + max (d/4) 0 + max (d/4) 0) := by
  simp [steps, stepsLoop, hd, isSet, waitUntil]

/-- The full normal execute path with the signal never set: four progress
steps, the 100% "Done" message at elapsed `4 * max (delay/4) 0` (before the
minimum-runtime wait), then the result at `max` of that and `minRunSeconds`
(when positive), exit code 0. -/
theorem handleExecute_normal_run (params : List (String × Json)) (execId : Json)
    (nowStr : String) (s : String) (d m : ℚ)
    (hmsg : dictGet params "message" Json.null = Json.str s)
    (hs : s ≠ "")
    (hsf : truthy (dictGet params "shouldFail" (Json.bool false)) = false)
    (hd : asPyNumber (dictGet params "delay" (Json.num 1)) = some d)
    (hm : asPyNumber (dictGet params "minRunSeconds" (Json.num 0)) = some m) :
    handleExecute params execId nowStr none =
      .ok
        [ (0, .progress (some 25) "Processing input..."),
          (max (d/4) 0, .progress (some 50) "Transforming data..."),
          (max (d/4) 0 + max (d/4) 0, .progress (some 75) "Preparing output..."),
          (max (d/4) 0 + max (d/4) 0 + max (d/4) 0, .progress (some 90) "Finalizing..."),
          (max (d/4) 0 + max (d/4) 0 + max (d/4) 0 + max (d/4) 0,
            .progress (some 100) "Done"),
          (if 0 < m then max (max (d/4) 0 + max (d/4) 0 + max (d/4) 0 + max (d/4) 0) m
             else max (d/4) 0 + max (d/4) 0 + max (d/4) 0 + max (d/4) 0,
            .result (Json.obj
              [("echoedMessage", Json.str ("ECHO v2.1: " ++ echoTransform s)),
               ("processedAt", Json.str nowStr), ("executionId", execId)])) ]
        0
        (if 0 < m then max (max (d/4) 0 + max (d/4) 0 + max (d/4) 0 + max (d/4) 0) m
           else max (d/4) 0 + max (d/4) 0 + max (d/4) 0 + max (d/4) 0) := by
  have hms : truthy (dictGet params "message" Json.null) = true := by
    rw [hmsg]
    simp [truthy]
    exact hs
  have hts : truthy (Json.str s) = true := by
    simp [truthy]
    exact hs
  by_cases hm0 : 0 < m
  · simp [handleExecute, hms, hts, hsf, stepsLoop_none_run _ d hd, hmsg, hm, isSet,
      minRunLoop_none_eq, hm0]
  · simp [handleExecute, hms, hts, hsf, stepsLoop_none_run _ d hd, hmsg, hm, isSet,
      minRunLoop_none_eq, hm0]

/-- The full normal process run: dispatcher prefix (0% and 10% progress)
followed by the normal execute path, with the signal never set. -/
theorem mainRun_normal (envExecId nowStr : String) (s : String) (d m : ℚ)
    (fields meta : List (String × Json))
    (hmeta : dictGet fields "_meta" (Json.obj []) = Json.obj meta)
    (hkc : kcSafe (dictGet meta "keycloak" Json.null) = true)
    (hact : dictGet fields "_action" Json.null = Json.str "execute")
    (hmsg : dictGet (userParams fields) "message" Json.null = Json.str s)
    (hs : s ≠ "")
    (hsf : truthy (dictGet (userParams fields) "shouldFail" (Json.bool false)) = false)
    (hd : asPyNumber (dictGet (userParams fields) "delay" (Json.num 1)) = some d)
    (hm : asPyNumber (dictGet (userParams fields) "minRunSeconds" (Json.num 0)) = some m) :
    mainRun envExecId (.parsed (.obj fields)) nowStr none =
      .ok
        [ (0, .progress (some 0) "Starting..."),
          (0, .progress (some 10) "Input validated"),
          (0, .progress (some 25) "Processing input..."),
          (max (d/4) 0, .progress (some 50) "Transforming data..."),
          (max (d/4) 0 + max (d/4) 0, .progress (some 75) "Preparing output..."),
          (max (d/4) 0 + max (d/4) 0 + max (d/4) 0, .progress (some 90) "Finalizing..."),
          (max (d/4) 0 + max (d/4) 0 + max (d/4) 0 + max (d/4) 0,
            .progress (some 100) "Done"),
          (if 0 < m then max (max (d/4) 0 + max (d/4) 0 + max (d/4) 0 + max (d/4) 0) m
             else max (d/4) 0 + max (d/4) 0 + max (d/4) 0 + max (d/4) 0,
            .result (Json.obj
              [("echoedMessage", Json.str ("ECHO v2.1: " ++ echoTransform s)),
               ("processedAt", Json.str nowStr),
               ("executionId", resolveExecId envExecId meta)])) ]
        0
        (if 0 < m then max (max (d/4) 0 + max (d/4) 0 + max (d/4) 0 + max (d/4) 0) m
           else max (d/4) 0 + max (d/4) 0 + max (d/4) 0 + max (d/4) 0) := by
  simp only [mainRun, hmeta]
  rw [if_pos hkc, if_neg (by simp [hact, truthy]),
    if_pos (by simp [hact, Json.isStr])]
  rw [handleExecute_normal_run (userParams fields) (resolveExecId envExecId meta)
    nowStr s d m hmsg hs hsf hd hm]
  simp [RunResult.prepend]

/-- C1: For every execute command whose message is a non-empty string, with
`shouldFail` false, numeric effective `delay` and `minRunSeconds`, and the
Cancellation Signal never set, the process emits progress percentages in
strictly increasing order 0, 10, 25, 50, 75, 90, 100 ending at 100, then
exactly one result message (the last message emitted), and exits 0. -/
theorem c1_normal_execute (envExecId nowStr : String) (s : String) (d m : ℚ)
    (fields meta : List (String × Json))
    (hmeta : dictGet fields "_meta" (Json.obj []) = Json.obj meta)
    (hkc : kcSafe (dictGet meta "keycloak" Json.null) = true)
    (hact : dictGet fields "_action" Json.null = Json.str "execute")
    (hmsg : dictGet (userParams fields) "message" Json.null = Json.str s)
    (hs : s ≠ "")
    (hsf : truthy (dictGet (userParams fields) "shouldFail" (Json.bool false)) = false)
    (hd : asPyNumber (dictGet (userParams fields) "delay" (Json.num 1)) = some d)
    (hm : asPyNumber (dictGet (userParams fields) "minRunSeconds" (Json.num 0)) = some m) :
    progressPercents (mainRun envExecId (.parsed (.obj fields)) nowStr none).trace =
      [some 0, some 10, some 25, some 50, some 75, some 90, some 100] ∧
    errorCodes (mainRun envExecId (.parsed (.obj fields)) nowStr none).trace = [] ∧
    resultsOf (mainRun envExecId (.parsed (.obj fields)) nowStr none).trace =
      [Json.obj
        [("echoedMessage", Json.str ("ECHO v2.1: " ++ echoTransform s)),
         ("processedAt", Json.str nowStr),
         ("executionId", resolveExecId envExecId meta)]] ∧
    ((mainRun envExecId (.parsed (.obj fields)) nowStr none).trace.getLast?).map
        (fun e => isTerminal e.2) = some true ∧
    (mainRun envExecId (.parsed (.obj fields)) nowStr none).exitCode = some 0 := by
  rw [mainRun_normal envExecId nowStr s d m fields meta hmeta hkc hact hmsg hs hsf hd hm]
  exact ⟨rfl, rfl, rfl, rfl, rfl⟩

/-- Witness for C1: `{"_action":"execute","message":"hi"}` with defaults. -/
theorem c1_normal_execute_witness :
    progressPercents (mainRun "unknown"
        (.parsed (.obj [("_action", Json.str "execute"), ("message", Json.str "hi")]))
        "ts" none).trace =
      [some 0, some 10, some 25, some 50, some 75, some 90, some 100] ∧
    errorCodes (mainRun "unknown"
        (.parsed (.obj [("_action", Json.str "execute"), ("message", Json.str "hi")]))
        "ts" none).trace = [] ∧
    resultsOf (mainRun "unknown"
        (.parsed (.obj [("_action", Json.str "execute"), ("message", Json.str "hi")]))
        "ts" none).trace =
      [Json.obj
        [("echoedMessage", Json.str ("ECHO v2.1: " ++ echoTransform "hi")),
         ("processedAt", Json.str "ts"),
         ("executionId", resolveExecId "unknown" [])]] ∧
    ((mainRun "unknown"
        (.parsed (.obj [("_action", Json.str "execute"), ("message", Json.str "hi")]))
        "ts" none).trace.getLast?).map (fun e => isTerminal e.2) = some true ∧
    (mainRun "unknown"
        (.parsed (.obj [("_action", Json.str "execute"), ("message", Json.str "hi")]))
        "ts" none).exitCode = some 0 :=
  c1_normal_execute "unknown" "ts" "hi" 1 0
    [("_action", Json.str "execute"), ("message", Json.str "hi")] []
    rfl rfl rfl (by rfl) (by decide) (by rfl) (by rfl) (by rfl)

/-- C2 (amended): on the normal execute path with `minRunSeconds > 0` and no
cancellation, the minimum-runtime wait precedes only the result emission:
the result is the last message, emitted at elapsed time
`max (processing time) minRunSeconds ≥ minRunSeconds`, and the run exits 0;
the progress 100% "Done" message, however, is emitted when processing
finishes, before the minimum-runtime wait, at elapsed time `4·max(delay/4) 0`
which may be smaller than `minRunSeconds`.  (As stated the claim fails: the
code emits "Done" at src/main.py line 266, before the wait at lines
277-288.) -/
theorem c2_min_runtime (envExecId nowStr : String) (s : String) (d m : ℚ)
    (fields meta : List (String × Json))
    (hmeta : dictGet fields "_meta" (Json.obj []) = Json.obj meta)
    (hkc : kcSafe (dictGet meta "keycloak" Json.null) = true)
    (hact : dictGet fields "_action" Json.null = Json.str "execute")
    (hmsg : dictGet (userParams fields) "message" Json.null = Json.str s)
    (hs : s ≠ "")
    (hsf : truthy (dictGet (userParams fields) "shouldFail" (Json.bool false)) = false)
    (hd : asPyNumber (dictGet (userParams fields) "delay" (Json.num 1)) = some d)
    (hm : asPyNumber (dictGet (userParams fields) "minRunSeconds" (Json.num 0)) = some m)
    (hm0 : 0 < m) :
    (max (d/4) 0 + max (d/4) 0 + max (d/4) 0 + max (d/4) 0,
        Msg.progress (some 100) "Done") ∈
      (mainRun envExecId (.parsed (.obj fields)) nowStr none).trace ∧
    (mainRun envExecId (.parsed (.obj fields)) nowStr none).trace.getLast? =
      some (max (max (d/4) 0 + max (d/4) 0 + max (d/4) 0 + max (d/4) 0) m,
        Msg.result (Json.obj
          [("echoedMessage", Json.str ("ECHO v2.1: " ++ echoTransform s)),
           ("processedAt", Json.str nowStr),
           ("executionId", resolveExecId envExecId meta)])) ∧
    m ≤ max (max (d/4) 0 + max (d/4) 0 + max (d/4) 0 + max (d/4) 0) m ∧
    (mainRun envExecId (.parsed (.obj fields)) nowStr none).exitCode = some 0 := by
  rw [mainRun_normal envExecId nowStr s d m fields meta hmeta hkc hact hmsg hs hsf hd hm]
  rw [if_pos hm0]
  refine ⟨?_, rfl, le_max_right _ m, rfl⟩
  simp [RunResult.trace]

/-- Witness for C2 (amended): delay 0, minRunSeconds 5. -/
theorem c2_min_runtime_witness :
    (max ((0:ℚ)/4) 0 + max ((0:ℚ)/4) 0 + max ((0:ℚ)/4) 0 + max ((0:ℚ)/4) 0,
        Msg.progress (some 100) "Done") ∈
      (mainRun "unknown"
        (.parsed (.obj [("_action", Json.str "execute"), ("message", Json.str "hi"),
          ("delay", Json.num 0), ("minRunSeconds", Json.num 5)])) "ts" none).trace ∧
    (mainRun "unknown"
        (.parsed (.obj [("_action", Json.str "execute"), ("message", Json.str "hi"),
          ("delay", Json.num 0), ("minRunSeconds", Json.num 5)])) "ts" none).trace.getLast? =
      some (max (max ((0:ℚ)/4) 0 + max ((0:ℚ)/4) 0 + max ((0:ℚ)/4) 0 + max ((0:ℚ)/4) 0) 5,
        Msg.result (Json.obj
          [("echoedMessage", Json.str ("ECHO v2.1: " ++ echoTransform "hi")),
           ("processedAt", Json.str "ts"),
           ("executionId", resolveExecId "unknown" [])])) ∧
    (5:ℚ) ≤ max (max ((0:ℚ)/4) 0 + max ((0:ℚ)/4) 0 + max ((0:ℚ)/4) 0 + max ((0:ℚ)/4) 0) 5 ∧
    (mainRun "unknown"
        (.parsed (.obj [("_action", Json.str "execute"), ("message", Json.str "hi"),
          ("delay", Json.num 0), ("minRunSeconds", Json.num 5)])) "ts" none).exitCode =
      some 0 :=
  c2_min_runtime "unknown" "ts" "hi" 0 5
    [("_action", Json.str "execute"), ("message", Json.str "hi"),
     ("delay", Json.num 0), ("minRunSeconds", Json.num 5)] []
    rfl rfl rfl (by rfl) (by decide) (by rfl) (by rfl) (by rfl) (by norm_num)

/-- Counterexample to C2 as stated: with delay 0 and minRunSeconds 5 the
100% "Done" progress message is emitted at elapsed time 0, strictly before
the minimum runtime of 5 seconds has elapsed. -/
theorem c2_counterexample :
    ((0:ℚ), Msg.progress (some 100) "Done") ∈
      (mainRun "unknown"
        (.parsed (.obj [("_action", Json.str "execute"), ("message", Json.str "hi"),
          ("delay", Json.num 0), ("minRunSeconds", Json.num 5)])) "ts" none).trace ∧
    jget [("_action", Json.str "execute"), ("message", Json.str "hi"),
      ("delay", Json.num 0), ("minRunSeconds", Json.num 5)] "minRunSeconds" =
      some (Json.num 5) ∧
    ¬ ((5:ℚ) ≤ 0) := by
  refine ⟨?_, rfl, by norm_num⟩
  rw [mainRun_normal "unknown" "ts" "hi" 0 5
    [("_action", Json.str "execute"), ("message", Json.str "hi"),
     ("delay", Json.num 0), ("minRunSeconds", Json.num 5)] []
    rfl rfl rfl (by rfl) (by decide) (by rfl) (by rfl) (by rfl)]
  norm_num [RunResult.trace]

/-- When the signal is set at time `tt ≥ 0` during a well-formed execute
run (truthy message, numeric delay and minRunSeconds) and the handler
returns normally no earlier than `tt`, the run was cancelled: it emitted
exactly one `TERMINATED` error, no result, returned exit code 3, and ended
at exactly the signal time `tt`. -/
theorem handleExecute_signal (params : List (String × Json)) (execId : Json)
    (nowStr : String) (tt d m : ℚ)
    (htt : 0 ≤ tt)
    (hmsg : truthy (dictGet params "message" Json.null) = true)
    (hd : asPyNumber (dictGet params "delay" (Json.num 1)) = some d)
    (hm : asPyNumber (dictGet params "minRunSeconds" (Json.num 0)) = some m)
    (tr : List TMsg) (c : ℕ) (tEnd : ℚ)
    (hok : handleExecute params execId nowStr (some tt) = .ok tr c tEnd)
    (hrun : tt ≤ tEnd) :
    c = 3 ∧ errorCodes tr = ["TERMINATED"] ∧ resultsOf tr = [] ∧ tEnd = tt := by
  have hmax : max (0:ℚ) tt = tt := max_eq_right htt
  simp only [handleExecute] at hok
  split at hok
  · rename_i hc
    rw [hmsg] at hc
    simp at hc
  · split at hok
    · split at hok
      · rename_i heq2
        rw [heq2] at hd
        simp [asPyNumber] at hd
      · rename_i hnone hfn
        rw [hd] at hnone
        exact Option.noConfusion hnone
      · rename_i hsome hfn
        rw [hd] at hsome
        injection hsome with heq2
        subst heq2
        split at hok
        · rename_i hset
          injection hok with h1 h2 h3
          subst h1
          have hle : waitUntil (some tt) 0 d ≤ tt := by
            have hb := waitUntil_le_max tt 0 d
            rwa [hmax] at hb
          have hge : tt ≤ waitUntil (some tt) 0 d := by
            simpa [isSet] using hset
          refine ⟨h2.symm, rfl, rfl, ?_⟩
          rw [← h3]
          exact le_antisymm hle hge
        · rename_i hset
          injection hok with h1 h2 h3
          subst h1
          exfalso
          have hlt : waitUntil (some tt) 0 d < tt := by
            rcases lt_or_le (waitUntil (some tt) 0 d) tt with hx | hx
            · exact hx
            · exact absurd (by simp [isSet, hx]) hset
          rw [← h3] at hrun
          linarith
    · split at hok
      · rename_i trS tS hsteps
        injection hok with h1 h2 h3
        subst h1
        obtain ⟨e1, e2, e3, e4⟩ := stepsLoop_term (some tt) _ _ _ _ _ _ hsteps
        refine ⟨h2.symm, e1, e2, ?_⟩
        rw [← h3]
        rw [e4 tt rfl, hmax]
      · exact RunResult.noConfusion hok
      · rename_i trS tS hsteps
        obtain ⟨e1, e2, e3, e4⟩ := stepsLoop_done (some tt) _ _ _ _ _ _ hsteps
        have htS : tS ≤ tt := by
          have := e4 tt rfl
          rwa [hmax] at this
        split at hok
        · rename_i hset
          injection hok with h1 h2 h3
          subst h1
          have hge : tt ≤ tS := by simpa [isSet] using hset
          refine ⟨h2.symm, by simp [e1, e2, terminatedMsg], by simp [e1, e2, terminatedMsg], ?_⟩
          rw [← h3]
          exact le_antisymm htS hge
        · rename_i hset
          have htSlt : tS < tt := by
            rcases lt_or_le tS tt with hx | hx
            · exact hx
            · exact absurd (by simp [isSet, hx]) hset
          split at hok
          · split at hok
            · exact RunResult.noConfusion hok
            · rename_i mv hsome
              rw [hm] at hsome
              injection hsome with heq2
              subst heq2
              split at hok
              · rename_i hm0
                split at hok
                · rename_i hterm
                  injection hok with h1 h2 h3
                  subst h1
                  have hge : tt ≤ (minRunLoop (some tt) m tS).1 :=
                    minRunLoop_term_set tt m tS hterm
                  have hle : (minRunLoop (some tt) m tS).1 ≤ tt := by
                    have hb := minRunLoop_le_max tt m tS
                    rwa [max_eq_right (le_of_lt htSlt)] at hb
                  refine ⟨h2.symm, by simp [e1, e2, terminatedMsg], by simp [e1, e2, terminatedMsg], ?_⟩
                  rw [← h3]
                  exact le_antisymm hle hge
                · split at hok
                  · rename_i hset2
                    injection hok with h1 h2 h3
                    subst h1
                    have hge : tt ≤ (minRunLoop (some tt) m tS).1 := by
                      simpa [isSet] using hset2
                    have hle : (minRunLoop (some tt) m tS).1 ≤ tt := by
                      have hb := minRunLoop_le_max tt m tS
                      rwa [max_eq_right (le_of_lt htSlt)] at hb
                    refine ⟨h2.symm, by simp [e1, e2, terminatedMsg], by simp [e1, e2, terminatedMsg], ?_⟩
                    rw [← h3]
                    exact le_antisymm hle hge
                  · rename_i hset2
                    injection hok with h1 h2 h3
                    subst h1
                    exfalso
                    have hlt : (minRunLoop (some tt) m tS).1 < tt := by
                      rcases lt_or_le (minRunLoop (some tt) m tS).1 tt with hx | hx
                      · exact hx
                      · exact absurd (by simp [isSet, hx]) hset2
                    rw [← h3] at hrun
                    linarith
              · rename_i hm0
                split at hok
                · rename_i hcontra
                  simp at hcontra
                · injection hok with h1 h2 h3
                  subst h1
                  exfalso
                  rw [← h3] at hrun
                  have : tt ≤ tS := by simpa using hrun
                  linarith
          · exact RunResult.noConfusion hok

/-- The stdin reader daemon (src/main.py lines 183-205) as a function of
the subsequent stdin lines: blank lines are skipped, invalid JSON is logged
and skipped, a parsed object whose action marker equals `terminate` sets the
Cancellation Signal and stops the reader, any other object is ignored; a
parsed non-object raises inside the reader (`msg.get`), which is caught by
the outer handler and stops the reader without setting the signal.  Returns
whether the signal gets set. -/
def stdinReaderSets : List FirstLine → Bool
  | [] => false
  | .empty :: rest => stdinReaderSets rest
  | .invalid _ :: rest => stdinReaderSets rest
  | .parsed j :: rest =>
    match j with
    | .obj kvs =>
      if (dictGet kvs "_action" Json.null).isStr "terminate" then true
      else stdinReaderSets rest
    | _ => false

/-- Whether the stdin reader survives a line and keeps listening: blank or
invalid lines and non-terminate objects are skipped; a terminate object or
a non-object stops it. -/
def readerKeepsGoing : FirstLine → Bool
  | .empty => true
  | .invalid _ => true
  | .parsed (.obj kvs) => !(dictGet kvs "_action" Json.null).isStr "terminate"
  | .parsed _ => false

/-- C4: If a terminate command line arrives on stdin at any point while an
execute action is running, the engine emits exactly one error with code
`TERMINATED`, no result, and exits 3, within one wait granularity of the
signal being set.  Part one: a terminate line reached by the stdin reader
sets the Cancellation Signal.  Part two: if the signal is set at time
`tt ≥ 0` and the well-formed execute run returns no earlier than `tt`
(i.e. the signal arrived while the action was still running), the run was
cancelled — exit code 3, exactly one `TERMINATED` error, no result — and it
ended at exactly the signal time `tt` (the model's waits wake as soon as the
signal is set, so the responsiveness bound is tight). -/
theorem c4_terminate_during_execute :
    (∀ (pre rest : List FirstLine) (kvs : List (String × Json)),
      (∀ l ∈ pre, readerKeepsGoing l = true) →
      (dictGet kvs "_action" Json.null).isStr "terminate" = true →
      stdinReaderSets (pre ++ FirstLine.parsed (Json.obj kvs) :: rest) = true) ∧
    (∀ (envExecId nowStr : String) (tt d m : ℚ)
      (fields meta : List (String × Json)),
      dictGet fields "_meta" (Json.obj []) = Json.obj meta →
      kcSafe (dictGet meta "keycloak" Json.null) = true →
      dictGet fields "_action" Json.null = Json.str "execute" →
      truthy (dictGet (userParams fields) "message" Json.null) = true →
      asPyNumber (dictGet (userParams fields) "delay" (Json.num 1)) = some d →
      asPyNumber (dictGet (userParams fields) "minRunSeconds" (Json.num 0)) = some m →
      0 ≤ tt →
      ∀ (tr : List TMsg) (c : ℕ) (tEnd : ℚ),
        mainRun envExecId (.parsed (.obj fields)) nowStr (some tt) = .ok tr c tEnd →
        tt ≤ tEnd →
        c = 3 ∧ errorCodes tr = ["TERMINATED"] ∧ resultsOf tr = [] ∧ tEnd = tt) := by
  constructor
  · intro pre rest kvs
    induction pre with
    | nil =>
      intro _ hterm
      simp [stdinReaderSets, hterm]
    | cons l pre ih =>
      intro hpre hterm
      have hl := hpre l (by simp)
      have hrest : ∀ l' ∈ pre, readerKeepsGoing l' = true :=
        fun l' hmem => hpre l' (by simp [hmem])
      cases l with
      | empty =>
        simpa [stdinReaderSets] using ih hrest hterm
      | invalid e =>
        simpa [stdinReaderSets] using ih hrest hterm
      | parsed j =>
        cases j with
        | obj kvs2 =>
          have hnt : (dictGet kvs2 "_action" Json.null).isStr "terminate" = false := by
            simpa [readerKeepsGoing] using hl
          simpa [stdinReaderSets, hnt] using ih hrest hterm
        | null => simp [readerKeepsGoing] at hl
        | bool b => simp [readerKeepsGoing] at hl
        | num q => simp [readerKeepsGoing] at hl
        | str s => simp [readerKeepsGoing] at hl
        | arr elems => simp [readerKeepsGoing] at hl
  · intro envExecId nowStr tt d m fields meta hmeta hkc hact hmsg hd hm htt tr c tEnd hok hrun
    simp only [mainRun, hmeta] at hok
    rw [if_pos hkc, if_neg (by simp [hact, truthy]),
      if_pos (by simp [hact, Json.isStr])] at hok
    cases hh : handleExecute (userParams fields) (resolveExecId envExecId meta)
        nowStr (some tt) with
    | ok trE cE tE =>
      rw [hh] at hok
      simp only [RunResult.prepend] at hok
      injection hok with h1 h2 h3
      subst h1
      subst h2
      subst h3
      obtain ⟨g1, g2, g3, g4⟩ := handleExecute_signal (userParams fields)
        (resolveExecId envExecId meta) nowStr tt d m htt hmsg hd hm trE cE tE hh hrun
      exact ⟨g1, by simp [g2], by simp [g3], g4⟩
    | exn trE =>
      rw [hh] at hok
      exact RunResult.noConfusion hok
    | hang trE =>
      rw [hh] at hok
      exact RunResult.noConfusion hok

/-- Witness for C4: one terminate line sets the signal; and with the signal
set at time 0, the run is cancelled immediately at the first step check. -/
theorem c4_terminate_during_execute_witness :
    stdinReaderSets [FirstLine.parsed (Json.obj [("_action", Json.str "terminate")])] = true ∧
    ((3:ℕ) = 3 ∧
      errorCodes
        [((0:ℚ), Msg.progress (some 0) "Starting..."),
         ((0:ℚ), Msg.progress (some 10) "Input validated"),
         ((0:ℚ), Msg.error "TERMINATED" "Process was terminated" none)] = ["TERMINATED"] ∧
      resultsOf
        [((0:ℚ), Msg.progress (some 0) "Starting..."),
         ((0:ℚ), Msg.progress (some 10) "Input validated"),
         ((0:ℚ), Msg.error "TERMINATED" "Process was terminated" none)] = [] ∧
      (0:ℚ) = 0) :=
  ⟨c4_terminate_during_execute.1 [] [] [("_action", Json.str "terminate")]
      (by intro l hl; cases hl) rfl,
    c4_terminate_during_execute.2 "unknown" "ts" 0 1 0
      [("_action", Json.str "execute"), ("message", Json.str "hi")] []
      rfl rfl rfl (by rfl) (by rfl) (by rfl) (le_refl 0)
      [((0:ℚ), Msg.progress (some 0) "Starting..."),
       ((0:ℚ), Msg.progress (some 10) "Input validated"),
       ((0:ℚ), Msg.error "TERMINATED" "Process was terminated" none)] 3 0
      (by rfl) (le_refl 0)⟩
